import Mathlib

/-!
Verification of the mustcc compiler front end.

This file embeds the core data structures and algorithms of the compiler
(type representation and unification, scope tree and import solver,
symbol/type table sizing, the type checker's finalization pass, and the
driver pipeline) as executable Lean definitions, and proves or refutes
the specification claims about them.

Modelling conventions:
* Rust `usize` counters and ids become `Nat`.
* The shared-ownership union-find graph of `UVar`s (Rc<RefCell<...>>)
  becomes an arena: a total map `Store : Nat → UVarData`; a `UVar` handle
  is its arena index.  `Rc::ptr_eq` becomes index equality.
* `UVar::find`'s path compression only rewrites `Link` targets to point at
  the same root and never changes any root's data, so the embedding models
  `find` as pure root-chasing; all root mutations (`union`, `resolve`)
  thread the store explicitly.
* Recursion through the store (link chains, resolved-type chains) is not
  structurally decreasing, so store-walking functions take a fuel
  parameter and return `none` on fuel exhaustion; `none` also models a
  Rust panic / `todo!()` / `unreachable!()`.
* Diagnostics are modelled by an inductive `Diag` carrying the position
  and the message family of the corresponding `error` constructor.
-/

namespace Mustcc

/-! ## Type representation (src/tp/tvar.rs, src/tp/mod.rs, src/tp/uvar.rs) -/

inductive TVarKind where
  | parameter
  | type
  | typeCons (n : Nat)
deriving DecidableEq, Repr

structure TVar where
  id : Nat
  kind : TVarKind
deriving DecidableEq, Repr

/-- TVar::is_numeric: `self.id > 2 && self.id < 32`. -/
def TVar.isNumeric (tv : TVar) : Bool :=
  2 < tv.id && tv.id < 32

/-- TVar::is_never: `self.id == 0`. -/
def TVar.isNever (tv : TVar) : Bool :=
  tv.id == 0

/-- TVar::is_builtin: `self.id < 65`. -/
def TVar.isBuiltin (tv : TVar) : Bool :=
  tv.id < 65

/-- TVar::of_builtin: the reserved id table (panic on a non-builtin name
is modelled by `none`). -/
def TVar.ofBuiltin (name : String) : Option TVar :=
  let id? : Option Nat :=
    match name with
    | "never" => some 0
    | "bool" => some 1
    | "order" => some 2
    | "u8" => some 3
    | "u16" => some 4
    | "u32" => some 5
    | "u64" => some 6
    | "usize" => some 7
    | "i8" => some 8
    | "i16" => some 9
    | "i32" => some 10
    | "i64" => some 11
    | "isize" => some 12
    | _ => none
  id?.map (fun id => { id := id, kind := TVarKind.type })

/-- TVar::builtin_size (src/tp/tvar.rs lines 89-111): sizes of the first
13 reserved ids, `none` for everything else. -/
def TVar.builtinSize (tv : TVar) : Option Nat :=
  match tv.id with
  | 0 => some 42
  | 1 => some 1
  | 2 => some 1
  | 3 => some 1
  | 4 => some 2
  | 5 => some 4
  | 6 => some 8
  | 7 => some 8
  | 8 => some 1
  | 9 => some 2
  | 10 => some 4
  | 11 => some 8
  | 12 => some 8
  | _ => none

/-- The abstract type representation (`TypeView`, src/tp/mod.rs lines
29-42).  The Rust `Type` wrapper is a single-field newtype over
`TypeView`, so the embedding uses one inductive for both; children of
`Tuple`/`Fun`/`TypeApp` are lists as in the source. -/
inductive Ty where
  | unknown
  | uvar (u : Nat)
  | numericUVar (u : Nat)
  | var (tv : TVar)
  | namedVar (tv : TVar) (name : String)
  | tuple (items : List Ty)
  | array (size : Nat) (tp : Ty)
  | fn (args : List Ty) (ret : Ty)
  | ptr (tp : Ty)
  | mutPtr (tp : Ty)
  | typeApp (tv : TVar) (name : String) (args : List Ty)
deriving Repr

/-- State of one union-find node (`UVarData`, src/tp/uvar.rs lines 10-15). -/
inductive UVarData where
  | unresolved
  | link (u : Nat)
  | resolved (tp : Ty)
deriving Repr

/-- The arena of union-find nodes; index = `UVar` handle identity. -/
abbrev Store := Nat → UVarData

def updateStore (s : Store) (r : Nat) (d : UVarData) : Store :=
  fun x => if x = r then d else s x

/-- UVar::find (src/tp/uvar.rs lines 41-51) as pure root-chasing; the
path compression performed by the source only redirects links to the
root it returns and never changes a root's data. -/
def find : Nat → Store → Nat → Option Nat
  | 0, _, _ => none
  | f + 1, s, u =>
    match s u with
    | UVarData.link v => find f s v
    | _ => some u

/-- UVar::union (src/tp/uvar.rs lines 54-60): link root1 to root2 when
they differ. -/
def unionUVar (f : Nat) (s : Store) (u1 u2 : Nat) : Option Store :=
  match find f s u1, find f s u2 with
  | some r1, some r2 =>
    if r1 = r2 then some s else some (updateStore s r1 (UVarData.link r2))
  | _, _ => none

/-- UVar::resolve (src/tp/uvar.rs lines 65-72): resolve the root; the
source panics when the root is already resolved (modelled by `none`). -/
def resolveUVar (f : Nat) (s : Store) (u : Nat) (tp : Ty) : Option Store :=
  match find f s u with
  | none => none
  | some r =>
    match s r with
    | UVarData.resolved _ => none
    | UVarData.link _ => none
    | UVarData.unresolved => some (updateStore s r (UVarData.resolved tp))

/-- Type::view (src/tp/mod.rs lines 48-66): dereference UVar chains; an
unresolved chain exposes the original handle, a resolved root exposes the
view of the resolved type. -/
def view : Nat → Store → Ty → Option Ty
  | 0, _, _ => none
  | f + 1, s, Ty.uvar u =>
    match find (f + 1) s u with
    | none => none
    | some r =>
      match s r with
      | UVarData.resolved tp => view f s tp
      | _ => some (Ty.uvar u)
  | f + 1, s, Ty.numericUVar u =>
    match find (f + 1) s u with
    | none => none
    | some r =>
      match s r with
      | UVarData.resolved tp => view f s tp
      | _ => some (Ty.numericUVar u)
  | _, _, t => some t

/-- UVar::occurs (src/tp/uvar.rs lines 83-95): does handle `u` occur in
`other`?  Matches on the view; `Rc::ptr_eq` becomes index equality; note
that the source recurses through `Ptr`/`MutPtr` exactly like `Array`.
The `iter().any(..)` over children is a short-circuiting left fold: once
the accumulator is `some true` the remaining children are not asked. -/
def occursTy (fuel : Nat) (s : Store) (u : Nat) (other : Ty) : Option Bool :=
  match fuel with
  | 0 => none
  | f + 1 =>
    match view (f + 1) s other with
    | none => none
    | some v =>
      match v with
      | Ty.var _ => some false
      | Ty.namedVar _ _ => some false
      | Ty.uvar w => some (u == w)
      | Ty.numericUVar w => some (u == w)
      | Ty.fn args ret =>
        match args.foldl (fun acc t =>
            match acc with
            | none => none
            | some true => some true
            | some false => occursTy f s u t) (some false) with
        | none => none
        | some true => some true
        | some false => occursTy f s u ret
      | Ty.ptr tp => occursTy f s u tp
      | Ty.mutPtr tp => occursTy f s u tp
      | Ty.array _ tp => occursTy f s u tp
      | Ty.tuple items =>
        items.foldl (fun acc t =>
          match acc with
          | none => none
          | some true => some true
          | some false => occursTy f s u t) (some false)
      | Ty.unknown => some false
      | Ty.typeApp _ _ items =>
        items.foldl (fun acc t =>
          match acc with
          | none => none
          | some true => some true
          | some false => occursTy f s u t) (some false)

/-- unify (src/tp/mod.rs lines 245-328).  Arms are tested in source
order.  The `zip(..).all(|(it1, it2)| unify(it1, it2))` combination of
the `TypeApp`/`Tuple`/`Fun` arms appears as a left fold over the zip:
it truncates at the shorter list, short-circuits on the first failure
(later pairs are not unified and produce no side effects), and threads
the store.  In the `Fun` arm the source initializes the accumulator
with `items1.len() != items2.len()` — the inverted comparison is kept
as written. -/
def unifyTy (fuel : Nat) (s : Store) (expTp actTp : Ty) : Option (Bool × Store) :=
  match fuel with
  | 0 => none
  | f + 1 =>
    match view (f + 1) s expTp with
    | none => none
    | some viewE =>
      match view (f + 1) s actTp with
      | none => none
      | some viewA =>
        -- first arm: anything unifies with `never` (guard on the actual view)
        if (match viewA with
            | Ty.var tv2 => tv2.isNever
            | Ty.namedVar tv2 _ => tv2.isNever
            | _ => false) then
          some (true, s)
        else
          match viewE, viewA with
          | Ty.namedVar tv1 _, Ty.namedVar tv2 _ => some (tv1 == tv2, s)
          | Ty.var tv1, Ty.var tv2 => some (tv1 == tv2, s)
          | Ty.numericUVar u1, Ty.numericUVar u2 =>
            match unionUVar (f + 1) s u1 u2 with
            | none => none
            | some s1 => some (true, s1)
          | Ty.uvar u1, Ty.uvar u2 =>
            match unionUVar (f + 1) s u1 u2 with
            | none => none
            | some s1 => some (true, s1)
          | Ty.uvar u, _ =>
            match occursTy (f + 1) s u actTp with
            | none => none
            | some true => some (false, s)
            | some false =>
              match resolveUVar (f + 1) s u actTp with
              | none => none
              | some s1 => some (true, s1)
          | _, Ty.uvar u =>
            match occursTy (f + 1) s u expTp with
            | none => none
            | some true => some (false, s)
            | some false =>
              match resolveUVar (f + 1) s u expTp with
              | none => none
              | some s1 => some (true, s1)
          | Ty.typeApp tv1 _ tps1, Ty.typeApp tv2 _ tps2 =>
            let ret := tv1 == tv2
            match (tps1.zip tps2).foldl (fun acc pr =>
                match acc with
                | none => none
                | some (false, s1) => some (false, s1)
                | some (true, s1) => unifyTy f s1 pr.1 pr.2) (some (true, s)) with
            | none => none
            | some (tps, s1) => some (ret && tps, s1)
          | Ty.array s1 tp1, Ty.array s2 tp2 =>
            -- `s1 == s2 && unify(..)` short-circuits: no unification on a
            -- length mismatch
            if s1 == s2 then unifyTy f s tp1 tp2 else some (false, s)
          | Ty.tuple items1, Ty.tuple items2 =>
            (items1.zip items2).foldl (fun acc pr =>
              match acc with
              | none => none
              | some (false, s1) => some (false, s1)
              | some (true, s1) => unifyTy f s1 pr.1 pr.2) (some (true, s))
          | Ty.numericUVar u, Ty.var tv =>
            match occursTy (f + 1) s u actTp with
            | none => none
            | some occ =>
              if !occ && tv.isNumeric then
                match resolveUVar (f + 1) s u actTp with
                | none => none
                | some s1 => some (true, s1)
              else some (false, s)
          | Ty.numericUVar u, Ty.namedVar tv _ =>
            match occursTy (f + 1) s u actTp with
            | none => none
            | some occ =>
              if !occ && tv.isNumeric then
                match resolveUVar (f + 1) s u actTp with
                | none => none
                | some s1 => some (true, s1)
              else some (false, s)
          | Ty.var tv, Ty.numericUVar u =>
            match occursTy (f + 1) s u expTp with
            | none => none
            | some occ =>
              if !occ && tv.isNumeric then
                match resolveUVar (f + 1) s u expTp with
                | none => none
                | some s1 => some (true, s1)
              else some (false, s)
          | Ty.namedVar tv _, Ty.numericUVar u =>
            match occursTy (f + 1) s u expTp with
            | none => none
            | some occ =>
              if !occ && tv.isNumeric then
                match resolveUVar (f + 1) s u expTp with
                | none => none
                | some s1 => some (true, s1)
              else some (false, s)
          | Ty.ptr tp1, Ty.ptr tp2 => unifyTy f s tp1 tp2
          | Ty.ptr tp1, Ty.mutPtr tp2 => unifyTy f s tp1 tp2
          | Ty.mutPtr tp1, Ty.mutPtr tp2 => unifyTy f s tp1 tp2
          | Ty.fn items1 ret1, Ty.fn items2 ret2 =>
            -- the source: `let mut ret = items1.len() != items2.len();`
            let ret0 := items1.length != items2.length
            match unifyTy f s ret1 ret2 with
            | none => none
            | some (br, s1) =>
              let ret1b := if br then ret0 else false
              match (items1.zip items2).foldl (fun acc pr =>
                  match acc with
                  | none => none
                  | some (false, s2) => some (false, s2)
                  | some (true, s2) => unifyTy f s2 pr.1 pr.2) (some (true, s1)) with
              | none => none
              | some (bi, s2) => some (ret1b && bi, s2)
          | _, _ => some (false, s)

/-! ## Scope tree and import solver (src/mod_tree/) -/

/-- Diagnostics are identified by their message family, the offending
name (when the message interpolates one) and the position. -/
inductive Diag where
  | isPrivate (name : String) (pos : Nat)
  | isAmbiguous (name : String) (pos : Nat)
  | isFunction (name : String) (pos : Nat)
  | isStruct (name : String) (pos : Nat)
  | isCons (name : String) (pos : Nat)
  | unbound (name : String) (pos : Nat)
  | cannotGlobImport (name : String) (pos : Nat)
  | cannotInferType (pos : Nat)
  | unsizedType (pos : Nat)
  | recursiveType (pos : Nat)
deriving DecidableEq, Repr

structure Ident where
  data : String
  pos : Nat
deriving DecidableEq, Repr

inductive Visibility where
  | priv
  | pub
deriving DecidableEq, Repr

/-- Kind of a binding (src/mod_tree/scope.rs lines 56-64). -/
inductive Kind where
  | module
  | func
  | struct
  | enum
  | cons
  | builtinType
deriving DecidableEq, Repr

/-- Symbol of a binding (src/mod_tree/scope.rs lines 66-72); the
`HashSet<NodeID>` of `Ambiguous` is modelled as an insertion-ordered
duplicate-free list. -/
inductive Symbol where
  | localS (id : Nat)
  | imported (id : Nat)
  | globImported (id : Nat)
  | ambiguous (ids : List Nat)
deriving DecidableEq, Repr

structure Binding where
  vis : Visibility
  kind : Kind
  sym : Symbol
deriving DecidableEq, Repr

structure Import where
  path : List Ident
  aliasName : Option Ident
  isGlob : Bool
  vis : Visibility
deriving DecidableEq, Repr

/-- The `items: BTreeMap<String, Binding>` of a scope, as its ordered
entry sequence. -/
abbrev Items := List (String × Binding)

inductive ScopeKind where
  | root
  | module (imports : List Import) (parent : Nat)
  | enum (parent : Nat)
  | struct (parent : Nat)
deriving DecidableEq, Repr

structure Scope where
  items : Items
  kind : ScopeKind
deriving DecidableEq, Repr

/-- Scope::parent (src/mod_tree/scope.rs lines 15-22). -/
def Scope.parent : Scope → Option Nat
  | { kind := ScopeKind.root, .. } => none
  | { kind := ScopeKind.module _ p, .. } => some p
  | { kind := ScopeKind.enum p, .. } => some p
  | { kind := ScopeKind.struct p, .. } => some p

/-- ScopeInfo's `data: HashMap<NodeID, Scope>`, as its entry sequence in
the (per-run) iteration order. -/
abbrev Tree := List (Nat × Scope)

def lookupScope : Tree → Nat → Option Scope
  | [], _ => none
  | (id, sc) :: rest, wanted => if id = wanted then some sc else lookupScope rest wanted

def lookupItem : Items → String → Option Binding
  | [], _ => none
  | (n, b) :: rest, wanted => if n = wanted then some b else lookupItem rest wanted

def insertItem (items : Items) (name : String) (b : Binding) : Items :=
  items ++ [(name, b)]

def updateItem : Items → String → Binding → Items
  | [], _, _ => []
  | (n, b) :: rest, wanted, b2 =>
    if n = wanted then (n, b2) :: rest else (n, b) :: updateItem rest wanted b2

/-- ScopeInfo::find_path (src/mod_tree/scope_info.rs lines 44-154).
`none` models the panics (`unwrap` on an empty path or a missing scope,
`super` at the root) and the missing `Kind::BuiltinType` arm of the
source's match on `binding.kind`.  The `&mut bool` private guard is
never written through by the source, so it is passed by value.  The
source recursion terminates because every call either shortens the path
or turns the guard off; the fuel parameter carries that bound (any
`fuel > 2 * path.length` is enough). -/
def findPath (fuel : Nat) (tree : Tree) (scopeId : Nat) (path : List Ident)
    (privateGuard : Bool) : Option (Except Diag Binding) :=
  match fuel with
  | 0 => none
  | f + 1 =>
    match path with
    | [] => none
    | name :: rest =>
      match lookupScope tree scopeId with
      | none => none
      | some nspace =>
        match lookupItem nspace.items name.data with
        | some binding =>
          if binding.vis == Visibility.priv && !privateGuard then
            some (Except.error (Diag.isPrivate name.data name.pos))
          else if rest.isEmpty then
            match binding.sym with
            | Symbol.ambiguous _ => some (Except.error (Diag.isAmbiguous name.data name.pos))
            | _ => some (Except.ok binding)
          else
            match binding.kind with
            | Kind.module =>
              match binding.sym with
              | Symbol.localS id => findPath f tree id rest false
              | Symbol.imported id => findPath f tree id rest false
              | Symbol.globImported id => findPath f tree id rest false
              | Symbol.ambiguous _ => some (Except.error (Diag.isAmbiguous name.data name.pos))
            | Kind.enum =>
              match binding.sym with
              | Symbol.localS id => findPath f tree id rest true
              | Symbol.imported id => findPath f tree id rest true
              | Symbol.globImported id => findPath f tree id rest true
              | Symbol.ambiguous _ => some (Except.error (Diag.isAmbiguous name.data name.pos))
            | Kind.func => some (Except.error (Diag.isFunction name.data name.pos))
            | Kind.struct => some (Except.error (Diag.isStruct name.data name.pos))
            | Kind.cons => some (Except.error (Diag.isCons name.data name.pos))
            | Kind.builtinType => none
        | none =>
          if privateGuard then
            if name.data == "super" then
              match nspace.parent with
              | none => none
              | some parent =>
                if rest.isEmpty then
                  some (Except.ok
                    { vis := Visibility.priv, kind := Kind.module, sym := Symbol.imported parent })
                else findPath f tree parent rest privateGuard
            else findPath f tree 0 (name :: rest) false
          else some (Except.error (Diag.unbound name.data name.pos))

/-- Extract the NodeID of a non-ambiguous symbol. -/
def symNodeId : Symbol → Option Nat
  | Symbol.localS id => some id
  | Symbol.imported id => some id
  | Symbol.globImported id => some id
  | Symbol.ambiguous _ => none

/-- HashSet::insert: returns whether the element was newly inserted. -/
def hsInsert (ids : List Nat) (x : Nat) : List Nat × Bool :=
  if ids.contains x then (ids, false) else (ids ++ [x], true)

/-- make_ambiguous (src/mod_tree/import_solve.rs lines 183-189): a fresh
two-element set `{id, binding_id}`, inserted in that order. -/
def makeAmbiguous (bindingId : Nat) (b : Binding) (id : Nat) : Binding × Bool :=
  ({ b with sym := Symbol.ambiguous (if bindingId = id then [id] else [id, bindingId]) }, true)

/-- The per-item body of the glob-import loop of resolve_import
(src/mod_tree/import_solve.rs lines 144-179), folded over the target
scope's items.  The loop's `changed` flag is reassigned by every
iteration, so an `Ambiguous` re-insert overwrites (and can clear) it,
exactly as in the source.  The source's private filter tests
`!private_guard && vis == Private` with `private_guard` still `true`
(find_path never writes through the `&mut bool`), so it never skips. -/
def globLoop (impVis : Visibility) : List (String × Binding) → Items → Bool → Items × Bool
  | [], items, changed => (items, changed)
  | (name, b) :: rest, items, changed =>
    if !true && b.vis == Visibility.priv then globLoop impVis rest items changed
    else
      match symNodeId b.sym with
      | none => globLoop impVis rest items changed
      | some bid =>
        let newBinding : Binding := ⟨impVis, b.kind, Symbol.globImported bid⟩
        match lookupItem items name with
        | none => globLoop impVis rest (insertItem items name newBinding) true
        | some existing =>
          match existing.sym with
          | Symbol.localS _ => globLoop impVis rest items changed
          | Symbol.imported _ => globLoop impVis rest items changed
          | Symbol.globImported gid =>
            if gid = bid then globLoop impVis rest items changed
            else
              let (b2, c) := makeAmbiguous bid existing gid
              globLoop impVis rest (updateItem items name b2) c
          | Symbol.ambiguous ids =>
            let (ids2, c) := hsInsert ids bid
            globLoop impVis rest
              (updateItem items name { existing with sym := Symbol.ambiguous ids2 }) c

/-- resolve_import (src/mod_tree/import_solve.rs lines 83-181).  `none`
models the `unreachable!` on an ambiguous find_path result and the
`unwrap` on an alias-less empty path.  In the exact-import shadowing arm
the source writes `Symbol::Imported(id)` where `id` is the id carried by
the *existing* `GlobImported` binding, not the freshly resolved
`binding_id`; the embedding keeps that as written. -/
def resolveImport (fuel : Nat) (old : Tree) (items : Items) (id : Nat) (imp : Import) :
    Option (Items × Bool) :=
  match findPath fuel old id imp.path true with
  | none => none
  | some (Except.error _) => some (items, false)
  | some (Except.ok binding) =>
    match symNodeId binding.sym with
    | none => none
    | some bindingId =>
      if imp.isGlob = false then
        let newBinding : Binding := ⟨imp.vis, binding.kind, Symbol.imported bindingId⟩
        match (match imp.aliasName with
               | some n => some n.data
               | none => (imp.path.getLast?).map Ident.data) with
        | none => none
        | some name =>
          match lookupItem items name with
          | none => some (insertItem items name newBinding, true)
          | some existing =>
            match existing.sym with
            | Symbol.globImported gid =>
              some (updateItem items name { existing with sym := Symbol.imported gid }, true)
            | Symbol.localS lid =>
              if lid = bindingId then some (items, false)
              else
                let (b2, c) := makeAmbiguous bindingId existing lid
                some (updateItem items name b2, c)
            | Symbol.imported lid =>
              if lid = bindingId then some (items, false)
              else
                let (b2, c) := makeAmbiguous bindingId existing lid
                some (updateItem items name b2, c)
            | Symbol.ambiguous ids =>
              let (ids2, c) := hsInsert ids bindingId
              some (updateItem items name { existing with sym := Symbol.ambiguous ids2 }, c)
      else
        match lookupScope old bindingId with
        | none => some (items, false)
        | some scope => some (globLoop imp.vis scope.items items false)

/-- The inner import loop of solve (src/mod_tree/import_solve.rs lines
31-33): `changed = changed | resolve_import(..)` over a module's
pending imports, mutating that scope's items. -/
def importsLoop (fuel : Nat) (old : Tree) (id : Nat) :
    List Import → Items → Bool → Option (Items × Bool)
  | [], items, changed => some (items, changed)
  | imp :: rest, items, changed =>
    match resolveImport fuel old items id imp with
    | none => none
    | some (items2, c) => importsLoop fuel old id rest items2 (changed || c)

/-- One scope of a solve pass: only module scopes carry imports. -/
def solveScope (fuel : Nat) (old : Tree) (id : Nat) (scope : Scope) : Option (Scope × Bool) :=
  match scope.kind with
  | ScopeKind.module imports _ =>
    match importsLoop fuel old id imports scope.items false with
    | none => none
    | some (items2, c) => some ({ scope with items := items2 }, c)
  | _ => some (scope, false)

/-- One full pass of solve (src/mod_tree/import_solve.rs lines 24-34):
every scope's imports are resolved against the immutable snapshot
`old`, updating each scope's own items in the new tree. -/
def solvePass (fuel : Nat) (old : Tree) : Tree → Option (Tree × Bool)
  | [] => some ([], false)
  | (id, scope) :: rest =>
    match solveScope fuel old id scope with
    | none => none
    | some (scope2, c1) =>
      match solvePass fuel old rest with
      | none => none
      | some (rest2, c2) => some ((id, scope2) :: rest2, c1 || c2)

/-- The fixed-point loop of solve (src/mod_tree/import_solve.rs lines
19-46): snapshot, pass, repeat while anything changed.  `loopFuel`
models the unbounded `while changed`; `fuel` is the find_path recursion
bound. -/
def solveLoop (fuel : Nat) : Nat → Tree → Option Tree
  | 0, _ => none
  | lf + 1, t =>
    match solvePass fuel t t with
    | none => none
    | some (t2, c) => if c then solveLoop fuel lf t2 else some t2

/-! ## Driver pipeline (src/driver.rs) -/

inductive Stage where
  | parse
  | modTree
  | resolve
  | typecheck
  | mir
  | core
  | codegen
deriving DecidableEq, Repr

structure Cli where
  printInputAst : Bool
  typecheckOnly : Bool
  coreDump : Bool
deriving DecidableEq, Repr

/-- driver::run (src/driver.rs lines 10-53), abstracted to the sequence
of stages entered.  `dParse`, `dMod`, `dRes`, `dTc` are the numbers of
diagnostics the four front-end stages report into the `Context`;
`ctx.finish()` returns their total, and the single `error_count != 0`
test sits after type checking, before `mir::translate`. -/
def run (config : Cli) (dParse dMod dRes dTc : Nat) : List Stage :=
  if config.printInputAst then [Stage.parse]
  else
    let front := [Stage.parse, Stage.modTree, Stage.resolve, Stage.typecheck]
    let errorCount := dParse + dMod + dRes + dTc
    if errorCount != 0 then front
    else if config.typecheckOnly then front
    else if config.coreDump then front ++ [Stage.mir, Stage.core]
    else front ++ [Stage.mir, Stage.core, Stage.codegen]

/-! ## Symbol/type table sizing (src/symtable/mod.rs, src/symtable/type_sort.rs) -/

/-- TypeKind (src/symtable/mod.rs lines 234-244); field and constructor
maps are entry lists. -/
inductive TypeKind where
  | struct (params : List TVar) (fields : List (String × Ty))
  | enum (params : List TVar) (constructors : List (String × Nat))
deriving Repr

structure TypeInfo where
  name : String
  pos : Nat
  methods : List (String × Nat)
  kind : TypeKind
deriving Repr

/-- The `tvar_size: HashMap<TVar, usize>` being built, as an entry list. -/
abbrev SizeMap := List (TVar × Nat)

def lookupSize : SizeMap → TVar → Option Nat
  | [], _ => none
  | (tv, n) :: rest, wanted => if tv = wanted then some n else lookupSize rest wanted

def lookupInfo : List (TVar × TypeInfo) → TVar → Option TypeInfo
  | [], _ => none
  | (tv, i) :: rest, wanted => if tv = wanted then some i else lookupInfo rest wanted

/-- calculate_type_size (src/symtable/type_sort.rs lines 43-69).  The
result pairs the computed byte count with the `unsized_type` diagnostics
reported along the way; the `todo!()` arms for still-open unification
variables are `none`. -/
def calculateTypeSize (fuel : Nat) (s : Store) (pos : Nat) (m : SizeMap) (tp : Ty) :
    Option (Nat × List Diag) :=
  match fuel with
  | 0 => none
  | f + 1 =>
    match view (f + 1) s tp with
    | none => none
    | some v =>
      match v with
      | Ty.unknown => some (0, [])
      | Ty.uvar _ => none
      | Ty.numericUVar _ => none
      | Ty.typeApp tv _ _ =>
        match lookupSize m tv with
        | some n => some (n, [])
        | none => some (0, [Diag.unsizedType pos])
      | Ty.var tv =>
        match lookupSize m tv with
        | some n => some (n, [])
        | none => some (0, [Diag.unsizedType pos])
      | Ty.namedVar tv _ =>
        match lookupSize m tv with
        | some n => some (n, [])
        | none => some (0, [Diag.unsizedType pos])
      | Ty.tuple items =>
        -- `items.iter().map(..).sum()`: every element is measured, sizes
        -- summed and diagnostics appended left to right
        items.foldl (fun acc t =>
          match acc with
          | none => none
          | some (n, ds) =>
            match calculateTypeSize f s pos m t with
            | none => none
            | some (n2, ds2) => some (n + n2, ds ++ ds2)) (some (0, []))
      | Ty.array size tp2 =>
        match calculateTypeSize f s pos m tp2 with
        | none => none
        | some (n, ds) => some (n * size, ds)
      | Ty.fn _ _ => some (8, [])
      | Ty.ptr _ => some (8, [])
      | Ty.mutPtr _ => some (8, [])

/-- The struct-fields summation loop of calculate_size
(src/symtable/type_sort.rs lines 25-31). -/
def structFieldsLoop (fuel : Nat) (s : Store) (pos : Nat) (m : SizeMap) :
    List (String × Ty) → Option (Nat × List Diag)
  | [] => some (0, [])
  | (_, f) :: rest =>
    match calculateTypeSize fuel s pos m f with
    | none => none
    | some (n, ds) =>
      match structFieldsLoop fuel s pos m rest with
      | none => none
      | some (n2, ds2) => some (n + n2, ds ++ ds2)

/-- calculate_size (src/symtable/type_sort.rs lines 10-41): walk the topo
order; builtins take `builtin_size().unwrap()`, structs sum their fields
with `calculate_type_size` against the sizes computed so far, and the
`todo!()` arms (enums; the `LocalVar`/`Primitive` patterns, which name
variants the declared `TypeKind` does not even have) are `none`.  The
`node_map` parameter of the source is only consumed by those `todo!()`
arms and is omitted. -/
def calculateSize (fuel : Nat) (s : Store) (tvarMap : List (TVar × TypeInfo)) :
    List TVar → SizeMap → Option (SizeMap × List Diag)
  | [], m => some (m, [])
  | tv :: rest, m =>
    let step : Option (Nat × List Diag) :=
      if tv.isBuiltin then
        match tv.builtinSize with
        | none => none
        | some n => some (n, [])
      else
        match lookupInfo tvarMap tv with
        | none => none
        | some info =>
          match info.kind with
          | TypeKind.struct _ fields => structFieldsLoop fuel s info.pos m fields
          | TypeKind.enum _ _ => none
    match step with
    | none => none
    | some (n, ds) =>
      match calculateSize fuel s tvarMap rest (m ++ [(tv, n)]) with
      | none => none
      | some (m2, ds2) => some (m2, ds ++ ds2)

/-- TypeSize (src/symtable/mod.rs lines 156-162). -/
inductive TypeSize where
  | sized (n : Nat)
  | unsized
  | unknown
  | notUnified
deriving DecidableEq, Repr

/-- SymTable::sizeof (src/symtable/mod.rs lines 105-153).  Note the
`Fun` arm: it sums the sizes of the argument types and the return type,
unlike `calculate_type_size`, which assigns every function type the
fixed pointer width 8. -/
def sizeofTy (fuel : Nat) (s : Store) (m : SizeMap) (tp : Ty) : Option TypeSize :=
  match fuel with
  | 0 => none
  | f + 1 =>
    match view (f + 1) s tp with
    | none => none
    | some v =>
      match v with
      | Ty.unknown => some TypeSize.unknown
      | Ty.uvar _ => some TypeSize.notUnified
      | Ty.numericUVar _ => some TypeSize.notUnified
      | Ty.typeApp tv _ _ =>
        match lookupSize m tv with
        | some n => some (TypeSize.sized n)
        | none => some TypeSize.unsized
      | Ty.var tv =>
        match lookupSize m tv with
        | some n => some (TypeSize.sized n)
        | none => some TypeSize.unsized
      | Ty.namedVar tv _ =>
        match lookupSize m tv with
        | some n => some (TypeSize.sized n)
        | none => some TypeSize.unsized
      | Ty.tuple items =>
        -- the source loop `return`s the first non-Sized element result
        items.foldl (fun acc t =>
          match acc with
          | none => none
          | some (TypeSize.sized n) =>
            match sizeofTy f s m t with
            | none => none
            | some (TypeSize.sized n2) => some (TypeSize.sized (n + n2))
            | some other => some other
          | some other => some other) (some (TypeSize.sized 0))
      | Ty.array size tp2 =>
        match sizeofTy f s m tp2 with
        | none => none
        | some (TypeSize.sized n) => some (TypeSize.sized (n * size))
        | some other => some other
      | Ty.fn items ret =>
        match items.foldl (fun acc t =>
            match acc with
            | none => none
            | some (TypeSize.sized n) =>
              match sizeofTy f s m t with
              | none => none
              | some (TypeSize.sized n2) => some (TypeSize.sized (n + n2))
              | some other => some other
            | some other => some other) (some (TypeSize.sized 0)) with
        | none => none
        | some (TypeSize.sized n) =>
          match sizeofTy f s m ret with
          | none => none
          | some (TypeSize.sized n2) => some (TypeSize.sized (n + n2))
          | some other => some other
        | some other => some other
      | Ty.ptr _ => some (TypeSize.sized 8)
      | Ty.mutPtr _ => some (TypeSize.sized 8)

/-- The syntactic guard of the amended C10 claim: `t` mentions no
still-open unification variable, no `Unknown`, no function type, and
every `TVar` it measures has an entry in `m`. -/
def sizedUnder (m : SizeMap) : Ty → Bool
  | Ty.unknown => false
  | Ty.uvar _ => false
  | Ty.numericUVar _ => false
  | Ty.var tv => (lookupSize m tv).isSome
  | Ty.namedVar tv _ => (lookupSize m tv).isSome
  | Ty.typeApp tv _ _ => (lookupSize m tv).isSome
  | Ty.tuple items => items.attach.all (fun x => sizedUnder m x.1)
  | Ty.array _ tp => sizedUnder m tp
  | Ty.fn _ _ => false
  | Ty.ptr _ => true
  | Ty.mutPtr _ => true
decreasing_by
  all_goals simp_wf
  all_goals try have h := List.sizeOf_lt_of_mem x.2
  all_goals omega

/-! ## Type checker finalization (src/typecheck/env.rs) -/

/-- Type::builtin("i32"): `NamedVar` over the reserved id 10. -/
def i32Ty : Ty := Ty.namedVar { id := 10, kind := TVarKind.type } "i32"

/-- check_resolved (src/typecheck/env.rs lines 74-105): a still-open
`UVar` reports "cannot infer type" at the recorded allocation position;
a still-open `NumericUVar` is resolved to the builtin `i32`; concrete
shapes recurse into their components. -/
def checkResolved (fuel : Nat) (s : Store) (tp : Ty) (pos : Nat) :
    Option (Store × List Diag) :=
  match fuel with
  | 0 => none
  | f + 1 =>
    match view (f + 1) s tp with
    | none => none
    | some v =>
      match v with
      | Ty.uvar _ => some (s, [Diag.cannotInferType pos])
      | Ty.numericUVar u =>
        match resolveUVar (f + 1) s u i32Ty with
        | none => none
        | some s2 => some (s2, [])
      | Ty.unknown => some (s, [])
      | Ty.var _ => some (s, [])
      | Ty.namedVar _ _ => some (s, [])
      | Ty.tuple items =>
        items.foldl (fun acc t =>
          match acc with
          | none => none
          | some (s2, ds) =>
            match checkResolved f s2 t pos with
            | none => none
            | some (s3, ds2) => some (s3, ds ++ ds2)) (some (s, []))
      | Ty.array _ tp2 => checkResolved f s tp2 pos
      | Ty.fn items ret =>
        match items.foldl (fun acc t =>
            match acc with
            | none => none
            | some (s2, ds) =>
              match checkResolved f s2 t pos with
              | none => none
              | some (s3, ds2) => some (s3, ds ++ ds2)) (some (s, [])) with
        | none => none
        | some (s2, ds) =>
          match checkResolved f s2 ret pos with
          | none => none
          | some (s3, ds2) => some (s3, ds ++ ds2)
      | Ty.ptr tp2 => checkResolved f s tp2 pos
      | Ty.mutPtr tp2 => checkResolved f s tp2 pos
      | Ty.typeApp _ _ items =>
        items.foldl (fun acc t =>
          match acc with
          | none => none
          | some (s2, ds) =>
            match checkResolved f s2 t pos with
            | none => none
            | some (s3, ds2) => some (s3, ds ++ ds2)) (some (s, []))

/-- Env::finish (src/typecheck/env.rs lines 38-44): run check_resolved
over every `(type, allocation position)` pair pushed by
`Env::fresh_uvar` / `Env::numeric_uvar`, in allocation order. -/
def envFinish (fuel : Nat) (s : Store) : List (Ty × Nat) → Option (Store × List Diag)
  | [] => some (s, [])
  | (tp, pos) :: rest =>
    match checkResolved fuel s tp pos with
    | none => none
    | some (s2, ds) =>
      match envFinish fuel s2 rest with
      | none => none
      | some (s3, ds2) => some (s3, ds ++ ds2)

/-- No still-open unification variable occurs anywhere in `t`
(syntactically). -/
def groundTy : Ty → Bool
  | Ty.unknown => true
  | Ty.uvar _ => false
  | Ty.numericUVar _ => false
  | Ty.var _ => true
  | Ty.namedVar _ _ => true
  | Ty.tuple items => items.attach.all (fun x => groundTy x.1)
  | Ty.array _ tp => groundTy tp
  | Ty.fn args ret => args.attach.all (fun x => groundTy x.1) && groundTy ret
  | Ty.ptr tp => groundTy tp
  | Ty.mutPtr tp => groundTy tp
  | Ty.typeApp _ _ items => items.attach.all (fun x => groundTy x.1)
decreasing_by
  all_goals simp_wf
  all_goals try have h := List.sizeOf_lt_of_mem x.2
  all_goals omega

/-! ## Global allocation counters (src/common/node_id.rs, src/tp/tvar.rs) -/

/-- NodeID::new_global (src/common/node_id.rs lines 11-16): the global
counter is pre-incremented and its new value is the id.  (TVar::new and
UVar::new follow the same pattern over their own counters.) -/
def newGlobal (counter : Nat) : Nat × Nat :=
  (counter + 1, counter + 1)

/-- One compilation run's NodeID allocation: each declaration, in
traversal order, receives the next id from the persistent global
counter; the run returns the id assignment and the counter it leaves
behind for any later run in the same process. -/
def allocNodeIds : List String → Nat → List (String × Nat) × Nat
  | [], counter => ([], counter)
  | d :: rest, counter =>
    let (id, c2) := newGlobal counter
    let (l, c3) := allocNodeIds rest c2
    ((d, id) :: l, c3)

/-! ## Binding-lattice weight (for the import-solver fixed-point proofs)

Import solving only ever moves a slot forward on the lattice
`Absent < GlobImported < Local/Imported < Ambiguous(s) < Ambiguous(s∪·)`;
the weight makes that progress numeric. -/

def symWeight : Symbol → Nat
  | Symbol.globImported _ => 1
  | Symbol.localS _ => 2
  | Symbol.imported _ => 2
  | Symbol.ambiguous ids => 3 + ids.length

def bindingWeight (b : Binding) : Nat := symWeight b.sym

def itemsWeight (items : Items) : Nat :=
  (items.map (fun p => bindingWeight p.2)).sum

def treeWeight (t : Tree) : Nat :=
  (t.map (fun p => itemsWeight p.2.items)).sum

/-! ## Concrete artifacts used by the claim theorems -/

/-- A store in which every unification variable is still open. -/
def emptyStore : Store := fun _ => UVarData.unresolved

def u8TV : TVar := { id := 3, kind := TVarKind.type }
def u32TV : TVar := { id := 5, kind := TVarKind.type }

/-- Type::builtin("u8"). -/
def u8Ty : Ty := Ty.namedVar u8TV "u8"

/-- Type::builtin("u32"). -/
def u32Ty : Ty := Ty.namedVar u32TV "u32"

/-- `import a::*` as attached to module scope 3. -/
def globImportA : Import :=
  { path := [{ data := "a", pos := 100 }], aliasName := none,
    isGlob := true, vis := Visibility.pub }

/-- `import b::X` as attached to a module scope. -/
def exactImportBX : Import :=
  { path := [{ data := "b", pos := 101 }, { data := "X", pos := 102 }], aliasName := none,
    isGlob := false, vis := Visibility.pub }

/-- Scope tree for the exact-over-glob scenario: modules `a` and `b`
both declare a public struct `X` (declarations 10 and 20); module `m`
(scope 3) holds `import a::*` followed by `import b::X`. -/
def c3Tree : Tree :=
  [ (0, { items := [ ("a", ⟨Visibility.pub, Kind.module, Symbol.localS 1⟩),
                     ("b", ⟨Visibility.pub, Kind.module, Symbol.localS 2⟩),
                     ("m", ⟨Visibility.pub, Kind.module, Symbol.localS 3⟩) ],
          kind := ScopeKind.root }),
    (1, { items := [ ("X", ⟨Visibility.pub, Kind.struct, Symbol.localS 10⟩) ],
          kind := ScopeKind.module [] 0 }),
    (2, { items := [ ("X", ⟨Visibility.pub, Kind.struct, Symbol.localS 20⟩) ],
          kind := ScopeKind.module [] 0 }),
    (3, { items := [], kind := ScopeKind.module [globImportA, exactImportBX] 0 }) ]

/-- An already-converged tree: module scope 3 re-imports `b::X`, whose
target (declaration 20) its slot already holds. -/
def c6Tree : Tree :=
  [ (0, { items := [ ("b", ⟨Visibility.pub, Kind.module, Symbol.localS 2⟩) ],
          kind := ScopeKind.root }),
    (2, { items := [ ("X", ⟨Visibility.pub, Kind.struct, Symbol.localS 20⟩) ],
          kind := ScopeKind.module [] 0 }),
    (3, { items := [ ("X", ⟨Visibility.pub, Kind.struct, Symbol.imported 20⟩) ],
          kind := ScopeKind.module [exactImportBX] 0 }) ]

/-- Scope tree with a struct `S` (scope 1) containing a function `y`:
used to probe find_path through a struct as a non-final segment. -/
def c5Tree : Tree :=
  [ (0, { items := [ ("S", ⟨Visibility.pub, Kind.struct, Symbol.localS 1⟩) ],
          kind := ScopeKind.root }),
    (1, { items := [ ("y", ⟨Visibility.pub, Kind.func, Symbol.localS 2⟩) ],
          kind := ScopeKind.struct 0 }) ]

/-- Is the head constructor a unification-variable handle (the only
shapes whose view can differ from the type itself)? -/
def headIsUVar : Ty → Bool
  | Ty.uvar _ => true
  | Ty.numericUVar _ => true
  | _ => false

/-- Is the head constructor a composite shape (one of the structural
constructors `unify` recurses into)? -/
def headComposite : Ty → Bool
  | Ty.tuple _ => true
  | Ty.array _ _ => true
  | Ty.fn _ _ => true
  | Ty.ptr _ => true
  | Ty.mutPtr _ => true
  | Ty.typeApp _ _ _ => true
  | _ => false

/-- The per-field byte count of the C7 scenario: the `u8` leaf weighs 1
byte and the `u32` leaf 4 (reference values for the permutation-sum
argument). -/
def c7FieldVal : Ty → Nat
  | Ty.namedVar tv _ => if tv.id = 3 then 1 else 4
  | _ => 0

/-- Agreement shape between a `SymTable::sizeof` answer and a
`calculate_type_size` answer: both ran out of fuel together, or the
first is `Sized(n)` and the second computed the same `n` with no
diagnostic. -/
def sizeAgree (o1 : Option TypeSize) (o2 : Option (Nat × List Diag)) : Prop :=
  match o1, o2 with
  | none, none => True
  | some (TypeSize.sized n), some (n2, ds) => n = n2 ∧ ds = []
  | _, _ => False

/-! ## Claim theorems -/

/-- C1.  The claim says `unify` on two `Fun` types returns true only
when the argument lists have equal length (and likewise for `Tuple`).
Evaluating the code: two identical zero-argument function types fail to
unify, while function types of arities 0 and 1 unify, and so do tuples
of lengths 0 and 1 — because the `Fun` arm initializes its accumulator
with `items1.len() != items2.len()` (inverted) and the `Tuple` arm never
compares lengths (`zip` truncates). -/
theorem c1_unify_arity_code_eval :
    unifyTy 9 emptyStore (Ty.fn [] u8Ty) (Ty.fn [] u8Ty) = some (false, emptyStore)
    ∧ unifyTy 9 emptyStore (Ty.fn [] u8Ty) (Ty.fn [u8Ty] u8Ty) = some (true, emptyStore)
    ∧ unifyTy 9 emptyStore (Ty.tuple []) (Ty.tuple [u8Ty]) = some (true, emptyStore) :=
  ⟨rfl, rfl, rfl⟩

/-- C2 counterexample.  The claim says that when `u` occurs in `t` only
underneath a pointer constructor, the occurs check treats the pointer as
cycle-breaking and `unify(UVar(u), t)` succeeds.  In the code
`UVar::occurs` recurses through `Ptr` exactly like `Array`, so
`unify(UVar(0), Ptr(UVar(0)))` fails and leaves variable 0 open. -/
theorem c2_ptr_occurs_counterexample :
    occursTy 9 emptyStore 0 (Ty.ptr (Ty.uvar 0)) = some true
    ∧ unifyTy 9 emptyStore (Ty.uvar 0) (Ty.ptr (Ty.uvar 0)) = some (false, emptyStore) :=
  ⟨rfl, rfl⟩

/-- C3.  The claim says an exact import that resolves to declaration N
always wins over a glob import holding GlobImported(M), converging to
Imported(N) and never producing an Ambiguous binding.  Evaluating
the solver on `c3Tree` (glob brings `X ↦ GlobImported 10`, then
`import b::X` resolves to 20): the first pass rewrites the slot to
`Imported 10` — the *glob's* id, because the shadowing arm writes the id
carried by the existing binding — and the converged tree holds
`Ambiguous {10, 20}`. -/
theorem c3_exact_over_glob_code_eval :
    (solvePass 9 c3Tree c3Tree).map (fun p => ((lookupScope p.1 3).map Scope.items, p.2))
      = some (some [("X", ⟨Visibility.pub, Kind.struct, Symbol.imported 10⟩)], true)
    ∧ (solveLoop 9 9 c3Tree).map (fun t => (lookupScope t 3).map Scope.items)
      = some (some [("X", ⟨Visibility.pub, Kind.struct, Symbol.ambiguous [10, 20]⟩)]) :=
  ⟨rfl, rfl⟩

/-- C4 counterexample.  The claim says every later stage is entered only
when the error count at the preceding stage boundary is zero.  In
driver::run the name-resolution and type-checking stages (and with them
symbol-table construction) run unconditionally; the only error-count
gate sits after type checking.  With one diagnostic from the module-tree
stage the resolve and typecheck stages are still entered. -/
theorem c4_gate_counterexample :
    run ⟨false, false, false⟩ 0 1 0 0
      = [Stage.parse, Stage.modTree, Stage.resolve, Stage.typecheck]
    ∧ (1 : Nat) ≠ 0 :=
  ⟨rfl, by decide⟩

/-- C5 counterexample.  The claim says a non-final path segment of kind
Struct continues resolution into the struct's namespace.  The code's
match on `binding.kind` returns the "{} is a struct" diagnostic
instead: resolving `S::y` in `c5Tree` fails even though scope 1 (the
struct's namespace) holds `y`. -/
theorem c5_struct_segment_counterexample :
    findPath 9 c5Tree 0 [{ data := "S", pos := 0 }, { data := "y", pos := 1 }] true
      = some (Except.error (Diag.isStruct "S" 0)) :=
  rfl

/-- C9 counterexample.  NodeID::new_global draws from a process-global
counter that is never reset: a second run over the same two declarations
in the same process assigns ids 67/68 where the first assigned 65/66,
so the id assignment is not identical across repeated runs. -/
theorem c9_counter_persistence_counterexample :
    (allocNodeIds ["f", "g"] 64).1 = [("f", 65), ("g", 66)]
    ∧ (allocNodeIds ["f", "g"] ((allocNodeIds ["f", "g"] 64).2)).1 = [("f", 67), ("g", 68)]
    ∧ [("f", 65), ("g", 66)] ≠ [("f", 67), ("g", 68)] :=
  ⟨rfl, rfl, by decide⟩

/-- C10 counterexample.  The claim says SymTable::sizeof and
calculate_type_size assign every function type the same fixed width.
On `fn() -> u8` with `u8 ↦ 1` in the size map, sizeof sums the argument
and return sizes, giving `Sized 1`, while calculate_type_size gives the
fixed width 8. -/
theorem c10_fun_width_counterexample :
    sizeofTy 3 emptyStore [(u8TV, 1)] (Ty.fn [] u8Ty) = some (TypeSize.sized 1)
    ∧ calculateTypeSize 3 emptyStore 0 [(u8TV, 1)] (Ty.fn [] u8Ty) = some (8, [])
    ∧ (1 : Nat) ≠ 8 :=
  ⟨rfl, rfl, by decide⟩

/-- C4 amended.  driver::run has exactly one error-count gate, after
type checking: with the debug flags off, the four front-end stages
always run, and the lowering stages (mir, core, codegen) run exactly
when the total diagnostic count of the front end is zero. -/
theorem c4_gate_after_typecheck (a b c d : Nat) :
    run ⟨false, false, false⟩ a b c d
      = [Stage.parse, Stage.modTree, Stage.resolve, Stage.typecheck]
        ++ (if a + b + c + d = 0 then [Stage.mir, Stage.core, Stage.codegen] else []) := by
  by_cases h : a + b + c + d = 0 <;> simp [run, h]

/-- C9 amended.  NodeID allocation is a pure function of the traversal
order and the incoming value of the global counter: the k-th declaration
receives id `counter + 1 + k`, and the run leaves the counter advanced
by the number of declarations.  Two runs therefore agree exactly when
they start from the same counter value (as two fresh processes do), and
a repeated run in the same process, starting from the advanced counter,
shifts every id. -/
theorem c9_allocation_characterization (decls : List String) (c : Nat) :
    (allocNodeIds decls c).1
        = decls.zip ((List.range decls.length).map (fun i => c + 1 + i))
    ∧ (allocNodeIds decls c).2 = c + decls.length := by
  induction decls generalizing c with
  | nil => simp [allocNodeIds]
  | cons d rest ih =>
    have h1 := (ih (c + 1)).1
    have h2 := (ih (c + 1)).2
    refine ⟨?_, ?_⟩
    · simp only [allocNodeIds, newGlobal, List.length_cons, List.range_succ_eq_map,
        List.map_cons, List.map_map, List.zip_cons_cons, h1]
      have hfe : ((fun i => c + 1 + i) ∘ Nat.succ) = (fun i => c + 1 + 1 + i) := by
        funext i
        simp [Function.comp]
        omega
      rw [hfe]
    · simp only [allocNodeIds, newGlobal, List.length_cons, h2]
      omega

/-- The view of a type whose head is one of the composite constructors
is the type itself (no unification-variable chain to follow). -/
theorem viewComposite (f : Nat) (s : Store) (t : Ty) (h : headComposite t = true) :
    view (f + 1) s t = some t := by
  cases t <;> simp_all [view, headComposite]

/-- C2 amended.  The occurs check is fully structural — `Tuple`,
`Array`, `Fun`, `Ptr`, `MutPtr` and `TypeApp` alike: whenever the open
variable `u` occurs anywhere inside the composite type `t`,
`unify(UVar(u), t)` fails and leaves the store — in particular `u` —
untouched.  Pointers are not cycle-breaking for the occurs check. -/
theorem c2_occurs_blocks_unify (f : Nat) (s : Store) (u : Nat) (t : Ty)
    (hu : s u = UVarData.unresolved) (hc : headComposite t = true)
    (hocc : occursTy (f + 1) s u t = some true) :
    unifyTy (f + 1) s (Ty.uvar u) t = some (false, s) := by
  have hview : view (f + 1) s (Ty.uvar u) = some (Ty.uvar u) := by
    simp [view, find, hu]
  have hviewA : view (f + 1) s t = some t := viewComposite f s t hc
  cases t with
  | tuple items => simp [unifyTy, hview, hviewA, hocc]
  | array n tp => simp [unifyTy, hview, hviewA, hocc]
  | fn args ret => simp [unifyTy, hview, hviewA, hocc]
  | ptr tp => simp [unifyTy, hview, hviewA, hocc]
  | mutPtr tp => simp [unifyTy, hview, hviewA, hocc]
  | typeApp tv nm args => simp [unifyTy, hview, hviewA, hocc]
  | unknown => simp [headComposite] at hc
  | uvar w => simp [headComposite] at hc
  | numericUVar w => simp [headComposite] at hc
  | var tv => simp [headComposite] at hc
  | namedVar tv nm => simp [headComposite] at hc

/-- The view of any type whose head is not a unification-variable
handle is the type itself. -/
theorem viewNotUVar (f : Nat) (s : Store) (t : Ty) (h : headIsUVar t = false) :
    view (f + 1) s t = some t := by
  cases t <;> simp_all [view, headIsUVar]

/-- Unfolding of `sizedUnder` on a tuple in terms of plain list
membership. -/
theorem sizedUnder_tuple_iff (m : SizeMap) (items : List Ty) :
    sizedUnder m (Ty.tuple items) = true ↔ ∀ t ∈ items, sizedUnder m t = true := by
  rw [sizedUnder]
  rw [List.all_eq_true]
  constructor
  · intro h t ht
    exact h ⟨t, ht⟩ (List.mem_attach _ _)
  · intro h x _
    exact h x.1 x.2

/-- C2 witness: the amended theorem applied to the open variable 0 and
the pointer type `*U0`. -/
theorem c2_occurs_blocks_unify_witness :
    unifyTy 9 emptyStore (Ty.uvar 0) (Ty.ptr (Ty.uvar 0)) = some (false, emptyStore) :=
  c2_occurs_blocks_unify 8 emptyStore 0 (Ty.ptr (Ty.uvar 0)) rfl rfl rfl

/-- C5 amended.  For a non-final path segment bound with public
visibility: kinds Func, Cons and *Struct* stop resolution with the
corresponding descriptive diagnostic (the source refuses structs too,
contrary to the claim); kind Module continues into the module's scope
with a fresh private guard of false, and kind Enum continues with a
fresh private guard of true. -/
theorem c5_nonfinal_segment_kinds (f : Nat) (tree : Tree) (scopeId : Nat) (name : Ident)
    (hd : Ident) (tl : List Ident) (g : Bool) (ns : Scope) (binding : Binding) (id : Nat)
    (hscope : lookupScope tree scopeId = some ns)
    (hitem : lookupItem ns.items name.data = some binding)
    (hvis : binding.vis = Visibility.pub) :
    (binding.kind = Kind.func → findPath (f + 1) tree scopeId (name :: hd :: tl) g
        = some (Except.error (Diag.isFunction name.data name.pos)))
    ∧ (binding.kind = Kind.cons → findPath (f + 1) tree scopeId (name :: hd :: tl) g
        = some (Except.error (Diag.isCons name.data name.pos)))
    ∧ (binding.kind = Kind.struct → findPath (f + 1) tree scopeId (name :: hd :: tl) g
        = some (Except.error (Diag.isStruct name.data name.pos)))
    ∧ (binding.kind = Kind.module → binding.sym = Symbol.localS id →
        findPath (f + 1) tree scopeId (name :: hd :: tl) g = findPath f tree id (hd :: tl) false)
    ∧ (binding.kind = Kind.enum → binding.sym = Symbol.localS id →
        findPath (f + 1) tree scopeId (name :: hd :: tl) g = findPath f tree id (hd :: tl) true) := by
  refine ⟨?_, ?_, ?_, ?_, ?_⟩
  · intro hk
    simp [findPath, hscope, hitem, hvis, hk]
  · intro hk
    simp [findPath, hscope, hitem, hvis, hk]
  · intro hk
    simp [findPath, hscope, hitem, hvis, hk]
  · intro hk hsym
    simp [findPath, hscope, hitem, hvis, hk, hsym]
  · intro hk hsym
    simp [findPath, hscope, hitem, hvis, hk, hsym]

/-- The summation folds of `SymTable::sizeof` and `calculate_type_size`
agree whenever the per-element computations agree: starting from the
same partial sum, they either both fail together or both produce the
same total with no diagnostics. -/
theorem foldAgree (g1 : Ty → Option TypeSize) (g2 : Ty → Option (Nat × List Diag)) :
    ∀ (items : List Ty), (∀ t ∈ items, sizeAgree (g1 t) (g2 t)) →
    ∀ (acc1 : Option TypeSize) (acc2 : Option (Nat × List Diag)), sizeAgree acc1 acc2 →
    sizeAgree
      (items.foldl (fun acc t =>
        match acc with
        | none => none
        | some (TypeSize.sized k) =>
          match g1 t with
          | none => none
          | some (TypeSize.sized n2) => some (TypeSize.sized (k + n2))
          | some other => some other
        | some other => some other) acc1)
      (items.foldl (fun acc t =>
        match acc with
        | none => none
        | some (k, ds) =>
          match g2 t with
          | none => none
          | some (n2, ds2) => some (k + n2, ds ++ ds2)) acc2) := by
  intro items
  induction items with
  | nil => exact fun _ _ _ hacc => hacc
  | cons t ts ih =>
    intro hpt acc1 acc2 hacc
    have ht := hpt t (List.mem_cons_self t ts)
    have hts : ∀ x ∈ ts, sizeAgree (g1 x) (g2 x) :=
      fun x hx => hpt x (List.mem_cons_of_mem t hx)
    rcases acc1 with _ | ts0 <;> rcases acc2 with _ | pr0
    · exact ih hts none none trivial
    · simp [sizeAgree] at hacc
    · cases ts0 <;> simp [sizeAgree] at hacc
    · cases ts0 with
      | sized k =>
        obtain ⟨n0, ds0⟩ := pr0
        obtain ⟨hk, hds⟩ := hacc
        subst hk
        subst hds
        rcases h1 : g1 t with _ | ts1 <;> rcases h2 : g2 t with _ | pr <;>
          rw [h1, h2] at ht
        · simp only [List.foldl_cons, h1, h2]
          exact ih hts none none trivial
        · simp [sizeAgree] at ht
        · cases ts1 <;> simp [sizeAgree] at ht
        · cases ts1 with
          | sized k2 =>
            obtain ⟨n2, ds2⟩ := pr
            obtain ⟨hn, hds2⟩ := ht
            subst hn
            subst hds2
            simp only [List.foldl_cons, h1, h2, List.append_nil]
            exact ih hts (some (TypeSize.sized (k + k2))) (some (k + k2, [])) ⟨rfl, rfl⟩
          | unsized => simp [sizeAgree] at ht
          | unknown => simp [sizeAgree] at ht
          | notUnified => simp [sizeAgree] at ht
      | unsized => simp [sizeAgree] at hacc
      | unknown => simp [sizeAgree] at hacc
      | notUnified => simp [sizeAgree] at hacc

/-- The struct-fields loop of calculate_size, on a field list whose
types are all `u8` or `u32`, sums the per-field reference values with
no diagnostics (size map already holding the two builtins). -/
theorem structFieldsLoopBuiltin (f : Nat) (s : Store) (pos : Nat) :
    ∀ (fs : List (String × Ty)), (∀ t ∈ fs.map Prod.snd, t = u8Ty ∨ t = u32Ty) →
    structFieldsLoop (f + 1) s pos [(u8TV, 1), (u32TV, 4)] fs
      = some (((fs.map Prod.snd).map c7FieldVal).sum, []) := by
  intro fs
  induction fs with
  | nil => intro _; rfl
  | cons p rest ih =>
    intro hall
    obtain ⟨nmf, t⟩ := p
    have ht := hall t (by simp)
    have hrest : ∀ x ∈ rest.map Prod.snd, x = u8Ty ∨ x = u32Ty :=
      fun x hx => hall x (by simp; right; simpa using hx)
    have ihr := ih hrest
    rcases ht with rfl | rfl
    · have hv : view (f + 1) s u8Ty = some u8Ty := viewNotUVar f s u8Ty rfl
      simp only [u8Ty, u32Ty, u8TV, u32TV, List.map_cons] at ihr hv ⊢
      simp [structFieldsLoop, calculateTypeSize, hv, ihr, lookupSize, c7FieldVal]
    · have hv : view (f + 1) s u32Ty = some u32Ty := viewNotUVar f s u32Ty rfl
      simp only [u8Ty, u32Ty, u8TV, u32TV, List.map_cons] at ihr hv ⊢
      simp [structFieldsLoop, calculateTypeSize, hv, ihr, lookupSize, c7FieldVal]

/-- C7.  A struct whose fields are exactly the builtins u8, u32, u8 —
in any field order — sizes to exactly 6 bytes: calculate_size walks the
topo order, assigns the builtin sizes u8 ↦ 1 and u32 ↦ 4, and sums the
field sizes with no alignment padding; moreover calculate_type_size
gives pointer and function fields the fixed width 8 and array fields
the element size times the length. -/
theorem c7_packed_struct_size (f : Nat) (s : Store) (sTV : TVar) (nm : String) (pos : Nat)
    (methods : List (String × Nat)) (params : List TVar) (fields : List (String × Ty))
    (hb : sTV.isBuiltin = false)
    (hperm : List.Perm (fields.map Prod.snd) [u8Ty, u32Ty, u8Ty]) :
    calculateSize (f + 1) s [(sTV, ⟨nm, pos, methods, TypeKind.struct params fields⟩)]
        [u8TV, u32TV, sTV] []
      = some ([(u8TV, 1), (u32TV, 4), (sTV, 6)], [])
    ∧ lookupSize [(u8TV, 1), (u32TV, 4), (sTV, 6)] sTV = some 6
    ∧ (∀ (pos2 : Nat) (m : SizeMap) (t : Ty),
        calculateTypeSize (f + 1) s pos2 m (Ty.ptr t) = some (8, [])
        ∧ calculateTypeSize (f + 1) s pos2 m (Ty.mutPtr t) = some (8, []))
    ∧ (∀ (pos2 : Nat) (m : SizeMap) (args : List Ty) (ret : Ty),
        calculateTypeSize (f + 1) s pos2 m (Ty.fn args ret) = some (8, []))
    ∧ (∀ (pos2 : Nat) (m : SizeMap) (k : Nat) (t : Ty),
        calculateTypeSize (f + 1) s pos2 m (Ty.array k t)
          = (calculateTypeSize f s pos2 m t).map (fun p => (p.1 * k, p.2))) := by
  have hid : 65 ≤ sTV.id := by
    simp [TVar.isBuiltin] at hb
    omega
  have hne1 : u8TV ≠ sTV := by
    intro he
    rw [u8TV] at he
    have : sTV.id = 3 := by rw [← he]
    omega
  have hne2 : u32TV ≠ sTV := by
    intro he
    rw [u32TV] at he
    have : sTV.id = 5 := by rw [← he]
    omega
  have hmem : ∀ t ∈ fields.map Prod.snd, t = u8Ty ∨ t = u32Ty := by
    intro t ht
    have := hperm.mem_iff.mp ht
    simp at this
    rcases this with h | h | h
    · left; exact h
    · right; exact h
    · left; exact h
  have hsum : ((fields.map Prod.snd).map c7FieldVal).sum = 6 := by
    have := (hperm.map c7FieldVal).sum_eq
    rw [this]
    simp [c7FieldVal, u8Ty, u32Ty, u8TV, u32TV]
  have hloop := structFieldsLoopBuiltin f s pos fields hmem
  rw [hsum] at hloop
  refine ⟨?_, ?_, ?_, ?_, ?_⟩
  · have hlt : ¬ sTV.id < 65 := by omega
    simp only [u8TV, u32TV] at hloop
    simp [calculateSize, TVar.isBuiltin, TVar.builtinSize, u8TV, u32TV, hb, lookupInfo,
      hne1, hne2, hloop, hlt]
  · simp [lookupSize, hne1, hne2]
  · intro pos2 m t
    have hv1 : view (f + 1) s (Ty.ptr t) = some (Ty.ptr t) := viewNotUVar f s (Ty.ptr t) rfl
    have hv2 : view (f + 1) s (Ty.mutPtr t) = some (Ty.mutPtr t) :=
      viewNotUVar f s (Ty.mutPtr t) rfl
    exact ⟨by simp [calculateTypeSize, hv1], by simp [calculateTypeSize, hv2]⟩
  · intro pos2 m args ret
    have hv : view (f + 1) s (Ty.fn args ret) = some (Ty.fn args ret) :=
      viewNotUVar f s (Ty.fn args ret) rfl
    simp [calculateTypeSize, hv]
  · intro pos2 m k t
    have hv : view (f + 1) s (Ty.array k t) = some (Ty.array k t) :=
      viewNotUVar f s (Ty.array k t) rfl
    cases h : calculateTypeSize f s pos2 m t <;> simp [calculateTypeSize, hv, h]

/-- C7 witness: a struct with fields declared in the order
`[u32, u8, u8]` — a permutation of `[u8, u32, u8]` — sizes to 6. -/
theorem c7_packed_struct_size_witness :
    calculateSize 1 emptyStore
        [(⟨65, TVarKind.type⟩,
          ⟨"S", 0, [], TypeKind.struct [] [("a", u32Ty), ("b", u8Ty), ("c", u8Ty)]⟩)]
        [u8TV, u32TV, ⟨65, TVarKind.type⟩] []
      = some ([(u8TV, 1), (u32TV, 4), (⟨65, TVarKind.type⟩, 6)], [])
    ∧ lookupSize [(u8TV, 1), (u32TV, 4), (⟨65, TVarKind.type⟩, 6)] ⟨65, TVarKind.type⟩
      = some 6 := by
  have h := c7_packed_struct_size 0 emptyStore ⟨65, TVarKind.type⟩ "S" 0 [] []
    [("a", u32Ty), ("b", u8Ty), ("c", u8Ty)] rfl
    (by simpa using List.Perm.swap u8Ty u32Ty [u8Ty])
  exact ⟨h.1, h.2.1⟩

/-- C10 amended.  SymTable::sizeof and calculate_type_size agree on
every type built — without function types — from `Var`/`NamedVar`/
`TypeApp` leaves whose TVars all have size-map entries, tuples, arrays
and pointers: with the same fuel they either both run out, or sizeof
returns `Sized n` for exactly the `n` that calculate_type_size computes
with no diagnostic (pointer types get the fixed width 8 from both).
Function types, where the two disagree, are excluded. -/
theorem c10_sizeof_agrees_fn_free (f : Nat) (s : Store) (m : SizeMap) (pos : Nat) (t : Ty)
    (h : sizedUnder m t = true) :
    sizeAgree (sizeofTy f s m t) (calculateTypeSize f s pos m t) := by
  induction f generalizing t with
  | zero => exact trivial
  | succ f ih =>
    cases t with
    | unknown => rw [sizedUnder] at h; exact absurd h (by decide)
    | uvar u => rw [sizedUnder] at h; exact absurd h (by decide)
    | numericUVar u => rw [sizedUnder] at h; exact absurd h (by decide)
    | fn args ret => rw [sizedUnder] at h; exact absurd h (by decide)
    | var tv =>
      rw [sizedUnder] at h
      obtain ⟨n, hn⟩ := Option.isSome_iff_exists.mp h
      have hv := viewNotUVar f s (Ty.var tv) rfl
      simp [sizeofTy, calculateTypeSize, hv, hn, sizeAgree]
    | namedVar tv nm =>
      rw [sizedUnder] at h
      obtain ⟨n, hn⟩ := Option.isSome_iff_exists.mp h
      have hv := viewNotUVar f s (Ty.namedVar tv nm) rfl
      simp [sizeofTy, calculateTypeSize, hv, hn, sizeAgree]
    | typeApp tv nm args =>
      rw [sizedUnder] at h
      obtain ⟨n, hn⟩ := Option.isSome_iff_exists.mp h
      have hv := viewNotUVar f s (Ty.typeApp tv nm args) rfl
      simp [sizeofTy, calculateTypeSize, hv, hn, sizeAgree]
    | ptr tp =>
      have hv := viewNotUVar f s (Ty.ptr tp) rfl
      simp [sizeofTy, calculateTypeSize, hv, sizeAgree]
    | mutPtr tp =>
      have hv := viewNotUVar f s (Ty.mutPtr tp) rfl
      simp [sizeofTy, calculateTypeSize, hv, sizeAgree]
    | array size tp =>
      rw [sizedUnder] at h
      have hv := viewNotUVar f s (Ty.array size tp) rfl
      have hag := ih tp h
      simp only [sizeofTy, calculateTypeSize, hv]
      rcases h1 : sizeofTy f s m tp with _ | ts1 <;>
        rcases h2 : calculateTypeSize f s pos m tp with _ | pr <;>
        rw [h1, h2] at hag
      · exact trivial
      · simp [sizeAgree] at hag
      · cases ts1 <;> simp [sizeAgree] at hag
      · cases ts1 with
        | sized k =>
          obtain ⟨pr1, pr2⟩ := pr
          obtain ⟨hn, hds⟩ := hag
          subst hn
          subst hds
          exact ⟨rfl, rfl⟩
        | unsized => simp [sizeAgree] at hag
        | unknown => simp [sizeAgree] at hag
        | notUnified => simp [sizeAgree] at hag
    | tuple items =>
      have hmem := (sizedUnder_tuple_iff m items).mp h
      have hv := viewNotUVar f s (Ty.tuple items) rfl
      simp only [sizeofTy, calculateTypeSize, hv]
      exact foldAgree (fun t => sizeofTy f s m t) (fun t => calculateTypeSize f s pos m t)
        items (fun t ht => ih t (hmem t ht)) (some (TypeSize.sized 0)) (some (0, [])) ⟨rfl, rfl⟩

/-- C10 witness: the amended theorem applied to the tuple
`(u8, *u8)` under the size map `{u8 ↦ 1}`. -/
theorem c10_sizeof_agrees_fn_free_witness :
    sizeAgree (sizeofTy 3 emptyStore [(u8TV, 1)] (Ty.tuple [u8Ty, Ty.ptr u8Ty]))
      (calculateTypeSize 3 emptyStore 0 [(u8TV, 1)] (Ty.tuple [u8Ty, Ty.ptr u8Ty])) :=
  c10_sizeof_agrees_fn_free 3 emptyStore [(u8TV, 1)] 0 (Ty.tuple [u8Ty, Ty.ptr u8Ty])
    (by rw [sizedUnder_tuple_iff]
        simp [sizedUnder, u8Ty, u8TV, lookupSize])

/-- Unfolding of `groundTy` on a tuple in terms of plain list
membership. -/
theorem groundTy_tuple_iff (items : List Ty) :
    groundTy (Ty.tuple items) = true ↔ ∀ t ∈ items, groundTy t = true := by
  rw [groundTy]
  rw [List.all_eq_true]
  constructor
  · intro h t ht
    exact h ⟨t, ht⟩ (List.mem_attach _ _)
  · intro h x _
    exact h x.1 x.2

/-- Unfolding of `groundTy` on a type application. -/
theorem groundTy_typeApp_iff (tv : TVar) (nm : String) (items : List Ty) :
    groundTy (Ty.typeApp tv nm items) = true ↔ ∀ t ∈ items, groundTy t = true := by
  rw [groundTy]
  rw [List.all_eq_true]
  constructor
  · intro h t ht
    exact h ⟨t, ht⟩ (List.mem_attach _ _)
  · intro h x _
    exact h x.1 x.2

/-- Unfolding of `groundTy` on a function type. -/
theorem groundTy_fn_iff (args : List Ty) (ret : Ty) :
    groundTy (Ty.fn args ret) = true ↔
      (∀ t ∈ args, groundTy t = true) ∧ groundTy ret = true := by
  rw [groundTy]
  rw [Bool.and_eq_true]
  rw [List.all_eq_true]
  constructor
  · intro ⟨h1, h2⟩
    exact ⟨fun t ht => h1 ⟨t, ht⟩ (List.mem_attach _ _), h2⟩
  · intro ⟨h1, h2⟩
    exact ⟨fun x _ => h1 x.1 x.2, h2⟩

/-- check_resolved on a type whose view chain contains no open
unification variable reports nothing and leaves the store unchanged. -/
theorem checkResolvedGround (s : Store) (pos : Nat) :
    ∀ (f : Nat) (t : Ty) (r : Store × List Diag), groundTy t = true →
      checkResolved f s t pos = some r → r = (s, []) := by
  intro f
  induction f with
  | zero =>
    intro t r hg hr
    simp [checkResolved] at hr
  | succ f ih =>
    have foldNoneImp : ∀ (l : List Ty) (r2 : Store × List Diag),
        l.foldl (fun acc t =>
          match acc with
          | none => none
          | some (s2, ds) =>
            match checkResolved f s2 t pos with
            | none => none
            | some (s3, ds2) => some (s3, ds ++ ds2)) none = some r2 → False := by
      intro l
      induction l with
      | nil => intro r2 hr; simp at hr
      | cons a l ihl => intro r2 hr; exact ihl r2 hr
    have foldKeepImp : ∀ (l : List Ty), (∀ x ∈ l, groundTy x = true) →
        ∀ (ds0 : List Diag) (r2 : Store × List Diag),
        l.foldl (fun acc t =>
          match acc with
          | none => none
          | some (s2, ds) =>
            match checkResolved f s2 t pos with
            | none => none
            | some (s3, ds2) => some (s3, ds ++ ds2)) (some (s, ds0)) = some r2 →
        r2 = (s, ds0) := by
      intro l
      induction l with
      | nil =>
        intro _ ds0 r2 hr
        simp at hr
        exact hr.symm
      | cons a l ihl =>
        intro hall ds0 r2 hr
        have ha := hall a (by simp)
        have hrest : ∀ x ∈ l, groundTy x = true := fun x hx => hall x (by simp [hx])
        rcases hc : checkResolved f s a pos with _ | ⟨s2, ds2⟩
        · simp only [List.foldl_cons, hc] at hr
          exact (foldNoneImp l r2 hr).elim
        · have he := ih a (s2, ds2) ha hc
          rw [he] at hc
          simp only [List.foldl_cons, hc, List.append_nil] at hr
          exact ihl hrest ds0 r2 hr
    intro t r hg hr
    cases t with
    | uvar u => simp [groundTy] at hg
    | numericUVar u => simp [groundTy] at hg
    | unknown =>
      have hv := viewNotUVar f s Ty.unknown rfl
      simp only [checkResolved, hv] at hr
      simp at hr
      exact hr.symm
    | var tv =>
      have hv := viewNotUVar f s (Ty.var tv) rfl
      simp only [checkResolved, hv] at hr
      simp at hr
      exact hr.symm
    | namedVar tv nm =>
      have hv := viewNotUVar f s (Ty.namedVar tv nm) rfl
      simp only [checkResolved, hv] at hr
      simp at hr
      exact hr.symm
    | tuple items =>
      have hv := viewNotUVar f s (Ty.tuple items) rfl
      have hmem := (groundTy_tuple_iff items).mp hg
      simp only [checkResolved, hv] at hr
      exact foldKeepImp items hmem [] r hr
    | typeApp tv nm items =>
      have hv := viewNotUVar f s (Ty.typeApp tv nm items) rfl
      have hmem := (groundTy_typeApp_iff tv nm items).mp hg
      simp only [checkResolved, hv] at hr
      exact foldKeepImp items hmem [] r hr
    | array k tp =>
      have hv := viewNotUVar f s (Ty.array k tp) rfl
      rw [groundTy] at hg
      simp only [checkResolved, hv] at hr
      exact ih tp r hg hr
    | ptr tp =>
      have hv := viewNotUVar f s (Ty.ptr tp) rfl
      rw [groundTy] at hg
      simp only [checkResolved, hv] at hr
      exact ih tp r hg hr
    | mutPtr tp =>
      have hv := viewNotUVar f s (Ty.mutPtr tp) rfl
      rw [groundTy] at hg
      simp only [checkResolved, hv] at hr
      exact ih tp r hg hr
    | fn args ret =>
      have hv := viewNotUVar f s (Ty.fn args ret) rfl
      obtain ⟨hargs, hret⟩ := (groundTy_fn_iff args ret).mp hg
      simp only [checkResolved, hv] at hr
      rcases hfold : args.foldl (fun acc t =>
          match acc with
          | none => none
          | some (s2, ds) =>
            match checkResolved f s2 t pos with
            | none => none
            | some (s3, ds2) => some (s3, ds ++ ds2)) (some (s, [])) with _ | ⟨s2, ds⟩
      · rw [hfold] at hr
        simp at hr
      · have he := foldKeepImp args hargs [] (s2, ds) hfold
        rw [he] at hfold
        rw [hfold] at hr
        rcases hc : checkResolved f s ret pos with _ | r3
        · simp [hc] at hr
        · have he2 := ih ret r3 hret hc
          rw [he2] at hc
          simp [hc] at hr
          exact hr.symm

/-- C8.  Env::finish walks every `(type, allocation position)` pair
recorded by `Env::fresh_uvar`/`Env::numeric_uvar` through
check_resolved, and check_resolved finalizes each: a view that is still
an open `UVar` reports exactly one "cannot infer type" diagnostic at
the recorded allocation position and leaves the store unchanged; a view
that is still an open `NumericUVar` resolves its root to the concrete
builtin numeric `i32` and reports nothing; a type whose view chain is
fully concrete reports nothing and changes nothing. -/
theorem c8_finish_finalizes :
    (∀ (f : Nat) (s : Store) (u : Nat) (tp : Ty) (pos : Nat),
        view (f + 1) s tp = some (Ty.uvar u) →
        checkResolved (f + 1) s tp pos = some (s, [Diag.cannotInferType pos]))
    ∧ (∀ (f : Nat) (s : Store) (u rt : Nat) (tp : Ty) (pos : Nat),
        view (f + 1) s tp = some (Ty.numericUVar u) →
        find (f + 1) s u = some rt → s rt = UVarData.unresolved →
        checkResolved (f + 1) s tp pos
          = some (updateStore s rt (UVarData.resolved i32Ty), []))
    ∧ (∀ (f : Nat) (s : Store) (tp : Ty) (pos : Nat) (r : Store × List Diag),
        groundTy tp = true → checkResolved f s tp pos = some r → r = (s, []))
    ∧ (∀ (f : Nat) (s : Store) (tp : Ty) (pos : Nat) (rest : List (Ty × Nat)),
        envFinish f s ((tp, pos) :: rest)
          = match checkResolved f s tp pos with
            | none => none
            | some (s2, ds) =>
              match envFinish f s2 rest with
              | none => none
              | some (s3, ds2) => some (s3, ds ++ ds2)) := by
  refine ⟨?_, ?_, ?_, ?_⟩
  · intro f s u tp pos hv
    simp [checkResolved, hv]
  · intro f s u rt tp pos hv hfind hrt
    simp [checkResolved, resolveUVar, hv, hfind, hrt]
  · intro f s tp pos r hg hr
    exact checkResolvedGround s pos f tp r hg hr
  · intro f s tp pos rest
    rfl

/-- C8 witness: the first two conjuncts applied to an open plain
variable (reports at its allocation position 7) and an open numeric
variable (silently resolved to `i32`). -/
theorem c8_finish_finalizes_witness :
    checkResolved 5 emptyStore (Ty.uvar 0) 7 = some (emptyStore, [Diag.cannotInferType 7])
    ∧ checkResolved 5 emptyStore (Ty.numericUVar 1) 9
      = some (updateStore emptyStore 1 (UVarData.resolved i32Ty), []) :=
  ⟨c8_finish_finalizes.1 4 emptyStore 0 (Ty.uvar 0) 7 rfl,
   c8_finish_finalizes.2.1 4 emptyStore 1 1 (Ty.numericUVar 1) 9 rfl rfl rfl⟩

theorem bindingWeight_pos (b : Binding) : 1 ≤ bindingWeight b := by
  cases b with
  | mk vis kind sym => cases sym <;> simp [bindingWeight, symWeight] <;> omega

theorem itemsWeight_insert (items : Items) (name : String) (b : Binding) :
    itemsWeight (insertItem items name b) = itemsWeight items + bindingWeight b := by
  simp [itemsWeight, insertItem]

/-- Replacing the first binding under an existing key by itself is the
identity. -/
theorem updateItem_self (name : String) (b : Binding) :
    ∀ (items : Items), lookupItem items name = some b → updateItem items name b = items := by
  intro items
  induction items with
  | nil => intro h; simp [lookupItem] at h
  | cons e rest ih =>
    intro h
    obtain ⟨n, b0⟩ := e
    by_cases hn : n = name
    · subst hn
      simp [lookupItem] at h
      subst h
      simp [updateItem]
    · simp [lookupItem, hn] at h
      simp [updateItem, hn, ih h]

/-- Replacing the first binding under an existing key by a strictly
heavier one strictly increases the total weight. -/
theorem itemsWeight_update_lt (name : String) (b b2 : Binding)
    (hw : bindingWeight b < bindingWeight b2) :
    ∀ (items : Items), lookupItem items name = some b →
      itemsWeight items < itemsWeight (updateItem items name b2) := by
  intro items
  induction items with
  | nil => intro h; simp [lookupItem] at h
  | cons e rest ih =>
    intro h
    obtain ⟨n, b0⟩ := e
    by_cases hn : n = name
    · subst hn
      simp [lookupItem] at h
      subst h
      simp [updateItem, itemsWeight]
      omega
    · simp [lookupItem, hn] at h
      have := ih h
      simp [updateItem, hn, itemsWeight] at this ⊢
      omega

/-- The glob-import loop either leaves the items untouched (and then a
false incoming changed flag stays false) or strictly increases the
binding-lattice weight. -/
theorem globLoopDichotomy (v : Visibility) :
    ∀ (entries : List (String × Binding)) (items : Items) (changed : Bool)
      (items2 : Items) (c2 : Bool),
    globLoop v entries items changed = (items2, c2) →
    (items2 = items ∧ (changed = false → c2 = false))
    ∨ itemsWeight items < itemsWeight items2 := by
  intro entries
  induction entries with
  | nil =>
    intro items changed items2 c2 hr
    rw [globLoop] at hr
    obtain ⟨h1, h2⟩ := Prod.mk.injEq .. ▸ hr
    left
    exact ⟨h1.symm, fun h => h ▸ h2.symm⟩
  | cons e rest ih =>
    intro items changed items2 c2 hr
    obtain ⟨name, b⟩ := e
    rw [globLoop] at hr
    simp only [Bool.not_true, Bool.false_and, Bool.false_eq_true, if_false] at hr
    cases hsym : symNodeId b.sym with
    | none =>
      simp only [hsym] at hr
      exact ih items changed items2 c2 hr
    | some bid =>
      simp only [hsym] at hr
      cases hlook : lookupItem items name with
      | none =>
        simp only [hlook] at hr
        rcases ih _ _ _ _ hr with ⟨h1, _⟩ | h
        · right
          rw [h1, itemsWeight_insert]
          have := bindingWeight_pos ⟨v, b.kind, Symbol.globImported bid⟩
          omega
        · right
          rw [itemsWeight_insert] at h
          have := bindingWeight_pos ⟨v, b.kind, Symbol.globImported bid⟩
          omega
      | some existing =>
        obtain ⟨evis, ekind, esym⟩ := existing
        simp only [hlook] at hr
        cases esym with
        | localS lid =>
          simp only [] at hr
          exact ih items changed items2 c2 hr
        | imported lid =>
          simp only [] at hr
          exact ih items changed items2 c2 hr
        | globImported gid =>
          simp only [makeAmbiguous, Prod.fst, Prod.snd] at hr
          by_cases hg : gid = bid
          · rw [if_pos hg] at hr
            exact ih items changed items2 c2 hr
          · rw [if_neg hg] at hr
            rw [if_neg (by omega : ¬ bid = gid)] at hr
            have hlt : itemsWeight items <
                itemsWeight (updateItem items name
                  ⟨evis, ekind, Symbol.ambiguous [gid, bid]⟩) :=
              itemsWeight_update_lt name _ _
                (by simp [bindingWeight, symWeight]) items hlook
            rcases ih _ _ _ _ hr with ⟨h1, _⟩ | h
            · right
              rw [h1]
              exact hlt
            · right
              omega
        | ambiguous ids =>
          simp only [hsInsert] at hr
          by_cases hmemb : ids.contains bid
          · rw [if_pos hmemb] at hr
            simp only [Prod.fst, Prod.snd] at hr
            rw [updateItem_self name ⟨evis, ekind, Symbol.ambiguous ids⟩ items hlook] at hr
            rcases ih _ _ _ _ hr with ⟨h1, h2⟩ | h
            · left
              exact ⟨h1, fun _ => h2 rfl⟩
            · right
              exact h
          · rw [if_neg hmemb] at hr
            simp only [Prod.fst, Prod.snd] at hr
            have hlt : itemsWeight items <
                itemsWeight (updateItem items name
                  ⟨evis, ekind, Symbol.ambiguous (ids ++ [bid])⟩) :=
              itemsWeight_update_lt name _ _
                (by simp [bindingWeight, symWeight]) items hlook
            rcases ih _ _ _ _ hr with ⟨h1, _⟩ | h
            · right
              rw [h1]
              exact hlt
            · right
              omega

/-- resolve_import either leaves the scope's items untouched, returning
changed = false, or strictly increases the binding-lattice weight. -/
theorem resolveImportDichotomy (fuel : Nat) (old : Tree) (id : Nat) (imp : Import) :
    ∀ (items items2 : Items) (c : Bool),
    resolveImport fuel old items id imp = some (items2, c) →
    (items2 = items ∧ c = false) ∨ itemsWeight items < itemsWeight items2 := by
  intro items items2 c hr
  rw [resolveImport] at hr
  cases hfp : findPath fuel old id imp.path true with
  | none => simp [hfp] at hr
  | some res =>
    cases res with
    | error d =>
      simp only [hfp, Option.some.injEq, Prod.mk.injEq] at hr
      left
      exact ⟨hr.1.symm, hr.2.symm⟩
    | ok binding =>
      simp only [hfp] at hr
      cases hsym : symNodeId binding.sym with
      | none => simp [hsym] at hr
      | some bindingId =>
        simp only [hsym] at hr
        by_cases hglob : imp.isGlob = false
        · rw [if_pos hglob] at hr
          cases hname : (match imp.aliasName with
              | some n => some n.data
              | none => (imp.path.getLast?).map Ident.data) with
          | none => simp [hname] at hr
          | some name =>
            simp only [hname] at hr
            cases hlook : lookupItem items name with
            | none =>
              simp only [hlook, Option.some.injEq, Prod.mk.injEq] at hr
              right
              rw [← hr.1, itemsWeight_insert]
              have := bindingWeight_pos ⟨imp.vis, binding.kind, Symbol.imported bindingId⟩
              omega
            | some existing =>
              obtain ⟨evis, ekind, esym⟩ := existing
              simp only [hlook] at hr
              cases esym with
              | globImported gid =>
                simp only [Option.some.injEq, Prod.mk.injEq] at hr
                right
                rw [← hr.1]
                exact itemsWeight_update_lt name _ _
                  (by simp [bindingWeight, symWeight]) items hlook
              | localS lid =>
                simp only [] at hr
                by_cases hla : lid = bindingId
                · rw [if_pos hla] at hr
                  simp only [Option.some.injEq, Prod.mk.injEq] at hr
                  left
                  exact ⟨hr.1.symm, hr.2.symm⟩
                · rw [if_neg hla] at hr
                  simp only [makeAmbiguous, Prod.fst, Prod.snd] at hr
                  rw [if_neg (by omega : ¬ bindingId = lid)] at hr
                  simp only [Option.some.injEq, Prod.mk.injEq] at hr
                  right
                  rw [← hr.1]
                  exact itemsWeight_update_lt name _ _
                    (by simp [bindingWeight, symWeight]) items hlook
              | imported lid =>
                simp only [] at hr
                by_cases hla : lid = bindingId
                · rw [if_pos hla] at hr
                  simp only [Option.some.injEq, Prod.mk.injEq] at hr
                  left
                  exact ⟨hr.1.symm, hr.2.symm⟩
                · rw [if_neg hla] at hr
                  simp only [makeAmbiguous, Prod.fst, Prod.snd] at hr
                  rw [if_neg (by omega : ¬ bindingId = lid)] at hr
                  simp only [Option.some.injEq, Prod.mk.injEq] at hr
                  right
                  rw [← hr.1]
                  exact itemsWeight_update_lt name _ _
                    (by simp [bindingWeight, symWeight]) items hlook
              | ambiguous ids =>
                simp only [hsInsert] at hr
                by_cases hmemb : ids.contains bindingId
                · rw [if_pos hmemb] at hr
                  simp only [Prod.fst, Prod.snd] at hr
                  rw [updateItem_self name ⟨evis, ekind, Symbol.ambiguous ids⟩ items hlook] at hr
                  simp only [Option.some.injEq, Prod.mk.injEq] at hr
                  left
                  exact ⟨hr.1.symm, hr.2.symm⟩
                · rw [if_neg hmemb] at hr
                  simp only [Prod.fst, Prod.snd, Option.some.injEq, Prod.mk.injEq] at hr
                  right
                  rw [← hr.1]
                  exact itemsWeight_update_lt name _ _
                    (by simp [bindingWeight, symWeight]) items hlook
        · rw [if_neg hglob] at hr
          cases hsc : lookupScope old bindingId with
          | none =>
            simp only [hsc, Option.some.injEq, Prod.mk.injEq] at hr
            left
            exact ⟨hr.1.symm, hr.2.symm⟩
          | some scope =>
            simp only [hsc, Option.some.injEq] at hr
            rcases globLoopDichotomy imp.vis scope.items items false items2 c
                (by rw [hr]) with ⟨h1, h2⟩ | h
            · left
              exact ⟨h1, h2 rfl⟩
            · right
              exact h

/-- The import loop of one scope either leaves the items untouched
(with a false flag staying false) or strictly increases the weight. -/
theorem importsLoopDichotomy (fuel : Nat) (old : Tree) (id : Nat) :
    ∀ (imps : List Import) (items : Items) (changed : Bool) (items2 : Items) (c2 : Bool),
    importsLoop fuel old id imps items changed = some (items2, c2) →
    (items2 = items ∧ (changed = false → c2 = false))
    ∨ itemsWeight items < itemsWeight items2 := by
  intro imps
  induction imps with
  | nil =>
    intro items changed items2 c2 hr
    simp only [importsLoop, Option.some.injEq, Prod.mk.injEq] at hr
    left
    exact ⟨hr.1.symm, fun h => by rw [← hr.2, h]⟩
  | cons imp rest ih =>
    intro items changed items2 c2 hr
    rw [importsLoop] at hr
    cases hri : resolveImport fuel old items id imp with
    | none =>
      simp only [hri] at hr
      exact Option.noConfusion hr
    | some pr =>
      obtain ⟨itemsM, cM⟩ := pr
      simp only [hri] at hr
      rcases resolveImportDichotomy fuel old id imp items itemsM cM hri with ⟨h1, h2⟩ | h
      · rw [h1, h2] at hr
        rcases ih items (changed || false) items2 c2 hr with ⟨h3, h4⟩ | h
        · left
          refine ⟨h3, fun hc => ?_⟩
          apply h4
          simp [hc]
        · right
          exact h
      · rcases ih itemsM (changed || cM) items2 c2 hr with ⟨h3, _⟩ | h2
        · right
          rw [h3]
          exact h
        · right
          omega

/-- One scope of a solve pass either returns the scope unchanged with
changed = false or strictly increases its items' weight. -/
theorem solveScopeDichotomy (fuel : Nat) (old : Tree) (id : Nat) (scope : Scope)
    (scope2 : Scope) (c : Bool) (hr : solveScope fuel old id scope = some (scope2, c)) :
    (scope2 = scope ∧ c = false)
    ∨ itemsWeight scope.items < itemsWeight scope2.items := by
  rw [solveScope] at hr
  cases hk : scope.kind with
  | module imports parent =>
    rw [hk] at hr
    cases hil : importsLoop fuel old id imports scope.items false with
    | none =>
      simp only [hil] at hr
      exact Option.noConfusion hr
    | some pr =>
      obtain ⟨items2, c2⟩ := pr
      simp only [hil, Option.some.injEq, Prod.mk.injEq] at hr
      rcases importsLoopDichotomy fuel old id imports scope.items false items2 c2 hil
          with ⟨h1, h2⟩ | h
      · left
        constructor
        · rw [← hr.1, h1, ← hk]
        · rw [← hr.2]
          exact h2 rfl
      · right
        rw [← hr.1]
        exact h
  | root =>
    rw [hk] at hr
    simp only [Option.some.injEq, Prod.mk.injEq] at hr
    left
    exact ⟨hr.1.symm, hr.2.symm⟩
  | enum parent =>
    rw [hk] at hr
    simp only [Option.some.injEq, Prod.mk.injEq] at hr
    left
    exact ⟨hr.1.symm, hr.2.symm⟩
  | struct parent =>
    rw [hk] at hr
    simp only [Option.some.injEq, Prod.mk.injEq] at hr
    left
    exact ⟨hr.1.symm, hr.2.symm⟩

/-- A full solve pass either reproduces the tree exactly with
changed = false, or strictly increases the total binding weight. -/
theorem solvePassDichotomy (fuel : Nat) (old : Tree) :
    ∀ (t t2 : Tree) (c : Bool), solvePass fuel old t = some (t2, c) →
    (t2 = t ∧ c = false) ∨ treeWeight t < treeWeight t2 := by
  intro t
  induction t with
  | nil =>
    intro t2 c hr
    simp only [solvePass, Option.some.injEq, Prod.mk.injEq] at hr
    left
    exact ⟨hr.1.symm, hr.2.symm⟩
  | cons e rest ih =>
    intro t2 c hr
    obtain ⟨id, scope⟩ := e
    rw [solvePass] at hr
    cases hsc : solveScope fuel old id scope with
    | none =>
      simp only [hsc] at hr
      exact Option.noConfusion hr
    | some pr =>
      obtain ⟨scope2, c1⟩ := pr
      simp only [hsc] at hr
      cases hrest : solvePass fuel old rest with
      | none =>
        simp only [hrest] at hr
        exact Option.noConfusion hr
      | some pr2 =>
        obtain ⟨rest2, c2⟩ := pr2
        simp only [hrest, Option.some.injEq, Prod.mk.injEq] at hr
        have hw2 : treeWeight ((id, scope2) :: rest2)
            = itemsWeight scope2.items + treeWeight rest2 := by
          simp [treeWeight]
        have hw1 : treeWeight ((id, scope) :: rest)
            = itemsWeight scope.items + treeWeight rest := by
          simp [treeWeight]
        rcases solveScopeDichotomy fuel old id scope scope2 c1 hsc with ⟨hs1, hs2⟩ | hs
        · rcases ih rest2 c2 hrest with ⟨hr1, hr2⟩ | hrw
          · left
            constructor
            · rw [← hr.1, hs1, hr1]
            · rw [← hr.2, hs2, hr2]
              rfl
          · right
            rw [← hr.1, hw2, hw1, hs1]
            omega
        · rcases ih rest2 c2 hrest with ⟨hr1, _⟩ | hrw
          · right
            rw [← hr.1, hw2, hw1, hr1]
            omega
          · right
            rw [← hr.1, hw2, hw1]
            omega

/-- C6.  Import solving is idempotent: on a tree `T` on which a full
pass produces no change (the pass reproduces `T`), running solve again
returns `T` itself — no binding is inserted, escalated to Ambiguous, or
otherwise altered.  The pass's changed flag must then be false (a
changed flag with an unchanged tree would contradict the strict
weight increase that every mutation causes), so the loop stops after
one pass. -/
theorem c6_solve_idempotent (fuel lf : Nat) (T : Tree) (c : Bool)
    (hpass : solvePass fuel T T = some (T, c)) :
    solveLoop fuel (lf + 1) T = some T := by
  rcases solvePassDichotomy fuel T T T c hpass with ⟨_, hc⟩ | hlt
  · subst hc
    simp [solveLoop, hpass]
  · exact absurd hlt (lt_irrefl _)

/-- C6 witness: on the converged tree `c6Tree` (whose only pending
binding re-imports the id its slot already holds) a pass reports no
change, and solve returns the tree unchanged. -/
theorem c6_solve_idempotent_witness : solveLoop 9 1 c6Tree = some c6Tree :=
  c6_solve_idempotent 9 0 c6Tree false rfl

/-- C5 witness: the amended theorem's Struct conjunct applied to
`c5Tree` and the path `S::y`. -/
theorem c5_nonfinal_segment_kinds_witness :
    findPath 9 c5Tree 0 [{ data := "S", pos := 0 }, { data := "y", pos := 1 }] true
      = some (Except.error (Diag.isStruct "S" 0)) :=
  (c5_nonfinal_segment_kinds 8 c5Tree 0 { data := "S", pos := 0 } { data := "y", pos := 1 }
    [] true { items := [("S", ⟨Visibility.pub, Kind.struct, Symbol.localS 1⟩)],
              kind := ScopeKind.root }
    ⟨Visibility.pub, Kind.struct, Symbol.localS 1⟩ 1 rfl rfl rfl).2.2.1 rfl

end Mustcc
